import Mathlib

/-!
Verification of `src/parse_fit.py` (braven_extension).

The script iterates over decoded FIT messages supplied by an external
collaborator library and prints a diagnostic report.  Following the spec's
data model (§3, §6), a decoded `Message` exposes an ordered list of
`Field`s; a `Field` exposes an optional `name`, a displayable `value`, an
optional `units` string, and — through an optional field-definition object —
an optional developer-origin indicator.  Standard output is modelled as a
list of lines (`List String`); each `print` call in the source contributes
its text plus the newline structure of its embedded `\n` characters.

Values are modelled by their displayed text: Python prints every value via
`str`, and the script never computes with values, so a field's `value`
(and `units`) is an `Option String` where `none` stands for Python `None`
(displayed as `"None"`).
-/

namespace ParseFit

/-- The field-definition object attached to a field (`f.field` in the
source).  `is_developer` is `none` when the attribute is missing
(`hasattr` fails), `some b` when present with boolean value `b`. -/
structure FieldDef where
  is_developer : Option Bool
deriving DecidableEq, Repr

/-- A decoded field of a message: `f.field` (optional definition object),
`f.name`, `f.value`, `f.units`.  `none` models Python `None` / a missing
attribute. -/
structure Field where
  field : Option FieldDef
  name : Option String
  value : Option String
  units : Option String
deriving DecidableEq, Repr

/-- A decoded message: an ordered list of fields, as yielded by the
collaborator's `get_messages`. -/
structure Message where
  fields : List Field
deriving DecidableEq, Repr

/-- Python `str(x)` for an optional displayed value: `None` prints as
`"None"`. -/
def pyStr : Option String → String
  | none => "None"
  | some s => s

/-- Python `(f.name or "")`: the field's name with `None` replaced by the
empty string. -/
def nameOrEmpty (f : Field) : String := f.name.getD ""

/-- Python per-character lowercasing of a string (`s.lower()` in the
source; the names involved are ASCII). -/
def pyLower (s : String) : String := ⟨s.data.map Char.toLower⟩

/-- Prefix test on character lists (helper for Python's `in` operator on
strings). -/
def isPrefixB : List Char → List Char → Bool
  | [], _ => true
  | _ :: _, [] => false
  | a :: as, b :: bs => a == b && isPrefixB as bs

/-- Substring containment on character lists: some suffix of `hay` starts
with `needle`. -/
def isSubB (needle : List Char) : List Char → Bool
  | [] => needle.isEmpty
  | b :: t => isPrefixB needle (b :: t) || isSubB needle t

/-- Python's `needle in hay` for strings. -/
def containsSub (needle hay : String) : Bool := isSubB needle.data hay.data

/-- The developer-origin test of the source's primary filter:
`f.field and hasattr(f.field, "is_developer") and f.field.is_developer`.
An absent definition object, a missing attribute, or a `False` value all
yield `false`. -/
def isDevField (f : Field) : Bool :=
  match f.field with
  | none => false
  | some fd => fd.is_developer.getD false

/-- The source's fallback name filter:
`"lactate" in (f.name or "").lower() or "Lactate" in (f.name or "")`. -/
def fallbackMatch (f : Field) : Bool :=
  containsSub "lactate" (pyLower (nameOrEmpty f)) ||
    containsSub "Lactate" (nameOrEmpty f)

/-- The primary list comprehension: fields whose developer-origin
indicator is present and true. -/
def dev_fields (r : Message) : List Field := r.fields.filter isDevField

/-- The fallback list comprehension: fields whose name matches the
"lactate" substring filter. -/
def fallback_fields (r : Message) : List Field := r.fields.filter fallbackMatch

/-- The value of `dev_fields` after the `if not dev_fields` reassignment:
the primary filter's result, or the fallback filter's result when the
primary one is empty. -/
def selected_fields (r : Message) : List Field :=
  let d := dev_fields r
  if d.isEmpty then fallback_fields r else d

/-- The collaborator's `record.get_value(n)` (spec §6): the value of the
first field named `n`, or absent when there is no such field or its value
is `None`. -/
def get_value (r : Message) (n : String) : Option String :=
  match r.fields.find? (fun f => f.name == some n) with
  | none => none
  | some f => f.value

/-- The text of `print(f"Record #{i} timestamp={ts}")`. -/
def recordHeader (i : Nat) (r : Message) : String :=
  "Record #" ++ toString i ++ " timestamp=" ++ pyStr (get_value r "timestamp")

/-- The text of `print(f"  {f.name}: {f.value} ({f.units})")`. -/
def fieldLine (f : Field) : String :=
  "  " ++ pyStr f.name ++ ": " ++ pyStr f.value ++ " (" ++ pyStr f.units ++ ")"

/-- The lines printed for one record message at index `i`: nothing when
neither filter matched, otherwise the header line, one line per field of
the record, and the blank separator line of the trailing `print()`. -/
def recordLines (i : Nat) (r : Message) : List String :=
  if (selected_fields r).isEmpty then []
  else recordHeader i r :: r.fields.map fieldLine ++ [""]

/-- The first report section: its banner (printed with a trailing blank
line) followed by the per-record output, records enumerated from 0 in the
order the collaborator yields them. -/
def recordSection (rs : List Message) : List String :=
  "=== ALL RECORD MESSAGES WITH DEVELOPER FIELDS ===" :: "" ::
    rs.enum.flatMap (fun p => recordLines p.1 p.2)

/-- The text of `print(f"  {f.name}: {f.value}")` in the two metadata
dump loops. -/
def msgPairLine (f : Field) : String := "  " ++ pyStr f.name ++ ": " ++ pyStr f.value

/-- The lines printed for one metadata message: a header line, one line
per field (name/value), and the blank separator line. -/
def msgBlock (header : String) (m : Message) : List String :=
  header :: m.fields.map msgPairLine ++ [""]

/-- The second report section (`field_description` messages). -/
def fdSection (ms : List Message) : List String :=
  "" :: "=== ALL DEVELOPER FIELD DESCRIPTION MESSAGES ===" :: "" ::
    ms.flatMap (msgBlock "Field Description:")

/-- The third report section (`developer_data_id` messages). -/
def ddSection (ms : List Message) : List String :=
  "" :: "=== ALL DEVELOPER DATA ID MESSAGES ===" :: "" ::
    ms.flatMap (msgBlock "Developer Data ID:")

/-- The complete standard-output text of one run, given the three message
sequences the collaborator yields. -/
def programOutput (records fds ddis : List Message) : List String :=
  recordSection records ++ fdSection fds ++ ddSection ddis

/-! ### Example messages (inputs for concrete evaluations) -/

/-- A field flagged as developer-origin by its definition metadata. -/
def devF : Field := ⟨some ⟨some true⟩, some "lactate_sensor", some "3.2", some "mmol/L"⟩

/-- A record message carrying the developer-origin field `devF`. -/
def recEx : Message := ⟨[devF]⟩

/-- An ordinary field: no definition object, non-matching name. -/
def plainF : Field := ⟨none, some "heart_rate", some "142", some "bpm"⟩

/-- A record message with only the ordinary field `plainF`. -/
def recPlain : Message := ⟨[plainF]⟩

/-- A field with no definition object whose name matches the fallback
filter only through the case-insensitive branch's lowercasing. -/
def lactF : Field := ⟨none, some "Lactate Threshold", some "4.0", some "mmol/L"⟩

/-- A record message with only the fallback-matching field `lactF`. -/
def recLact : Message := ⟨[lactF]⟩

/-- A field missing every optional attribute. -/
def bareF : Field := ⟨none, none, none, none⟩

/-- A normally named field whose definition object lacks the
developer-origin attribute (the spec §3 invariant case). -/
def namedNoIndF : Field := ⟨some ⟨none⟩, some "lactate_pro", some "2.5", some "mmol/L"⟩

/-! ### Helper lemmas -/

theorem isPrefixB_map (g : Char → Char) :
    ∀ n h : List Char, isPrefixB n h = true → isPrefixB (n.map g) (h.map g) = true := by
  intro n
  induction n with
  | nil => intro h _; simp [isPrefixB]
  | cons a as ih =>
    intro h hp
    cases h with
    | nil => simp [isPrefixB] at hp
    | cons b bs =>
      simp only [isPrefixB, Bool.and_eq_true, beq_iff_eq] at hp
      obtain ⟨hab, hrest⟩ := hp
      simp only [List.map_cons, isPrefixB, Bool.and_eq_true, beq_iff_eq]
      exact ⟨by rw [hab], ih bs hrest⟩

theorem isSubB_map (g : Char → Char) :
    ∀ h n : List Char, isSubB n h = true → isSubB (n.map g) (h.map g) = true := by
  intro h
  induction h with
  | nil =>
    intro n hs
    have hn : n = [] := List.isEmpty_iff.mp (by simpa [isSubB] using hs)
    subst hn
    rfl
  | cons b t ih =>
    intro n hs
    simp only [isSubB, Bool.or_eq_true] at hs
    simp only [List.map_cons, isSubB, Bool.or_eq_true]
    cases hs with
    | inl hp =>
      have hp2 := isPrefixB_map g n (b :: t) hp
      simp only [List.map_cons] at hp2
      exact Or.inl hp2
    | inr hr => exact Or.inr (ih n hr)

/-- The case-sensitive branch of the fallback filter is subsumed by the
case-insensitive one. -/
theorem lactate_subsumes (s : String) :
    containsSub "Lactate" s = true → containsSub "lactate" (pyLower s) = true := by
  intro h
  have h2 := isSubB_map Char.toLower s.data "Lactate".data h
  have e : ("Lactate".data).map Char.toLower = "lactate".data := by decide
  rw [e] at h2
  exact h2

/-- Two strings with different first characters are different. -/
theorem str_ne_of_head (s t : String) (h : s.data.head? ≠ t.data.head?) : s ≠ t :=
  fun e => h (by rw [e])

/-- Boolean form of `str_ne_of_head`. -/
theorem beq_false_of_head (s t : String) (h : s.data.head? ≠ t.data.head?) :
    (s == t) = false :=
  beq_eq_false_iff_ne.mpr (str_ne_of_head s t h)

theorem data_head_fieldLine (f : Field) : (fieldLine f).data.head? = some ' ' := by
  simp only [fieldLine, String.data_append, List.append_assoc]
  rfl

theorem data_head_recordHeader (i : Nat) (r : Message) :
    (recordHeader i r).data.head? = some 'R' := by
  simp only [recordHeader, String.data_append, List.append_assoc]
  rfl

theorem data_head_msgPairLine (f : Field) : (msgPairLine f).data.head? = some ' ' := by
  simp only [msgPairLine, String.data_append, List.append_assoc]
  rfl

/-- The record block printed for a matched record contains its header line
exactly once. -/
theorem countP_record_block (i : Nat) (r : Message) :
    (recordHeader i r :: r.fields.map fieldLine ++ [""]).countP
      (fun l => l == recordHeader i r) = 1 := by
  have h0 : (r.fields.map fieldLine).countP (fun l => l == recordHeader i r) = 0 := by
    rw [List.countP_eq_zero]
    intro a ha hpa
    obtain ⟨f, _, rfl⟩ := List.mem_map.mp ha
    rw [beq_false_of_head _ _ (by
      rw [data_head_fieldLine, data_head_recordHeader]; decide)] at hpa
    cases hpa
  have h1 : ([""] : List String).countP (fun l => l == recordHeader i r) = 0 := by
    rw [List.countP_eq_zero]
    intro a ha hpa
    rw [List.mem_singleton] at ha
    subst ha
    rw [beq_false_of_head _ _ (by rw [data_head_recordHeader]; decide)] at hpa
    cases hpa
  rw [List.countP_append, List.countP_cons, h0, h1, beq_self_eq_true]
  simp

/-- When the primary filter finds developer-origin fields, they are the
selected ones. -/
theorem selected_eq_dev (r : Message) (h : dev_fields r ≠ []) :
    selected_fields r = dev_fields r := by
  have hb : (dev_fields r).isEmpty = false := List.isEmpty_eq_false.mpr h
  simp [selected_fields, hb]

/-- When the primary filter finds nothing, the fallback filter's result is
selected. -/
theorem selected_eq_fallback (r : Message) (h : dev_fields r = []) :
    selected_fields r = fallback_fields r := by
  simp [selected_fields, h]

/-! ### Claims -/

/-- C2: the fallback name filter's two checks are redundant — for every
field name string `s`, the case-insensitive "lactate" check OR the
case-sensitive "Lactate" check equals the case-insensitive check alone. -/
theorem fallback_filter_redundant (s : String) :
    (containsSub "lactate" (pyLower s) || containsSub "Lactate" s)
      = containsSub "lactate" (pyLower s) := by
  cases h : containsSub "Lactate" s with
  | false => simp
  | true => simp [lactate_subsumes s h]

/-- C3: the fallback name filter is consulted only when the set of
developer-origin fields is empty; when that set is non-empty, the selected
fields are exactly the developer-origin ones. -/
theorem fallback_only_when_dev_empty (r : Message) :
    (dev_fields r ≠ [] → selected_fields r = dev_fields r) ∧
    (dev_fields r = [] → selected_fields r = fallback_fields r) :=
  ⟨selected_eq_dev r, selected_eq_fallback r⟩

/-- Witness for C3 at a concrete record with a developer-origin field. -/
theorem fallback_only_when_dev_empty_witness :
    selected_fields recEx = dev_fields recEx :=
  (fallback_only_when_dev_empty recEx).1 (by decide)

/-- C10: the program is deterministic — equal message sequences from the
collaborator produce identical standard-output text. -/
theorem output_deterministic (r1 f1 d1 r2 f2 d2 : List Message)
    (hr : r1 = r2) (hf : f1 = f2) (hd : d1 = d2) :
    programOutput r1 f1 d1 = programOutput r2 f2 d2 := by
  rw [hr, hf, hd]

/-- Witness for C10 at concrete message sequences. -/
theorem output_deterministic_witness :
    programOutput [recEx] [recPlain] [] = programOutput [recEx] [recPlain] [] :=
  output_deterministic [recEx] [recPlain] [] [recEx] [recPlain] [] rfl rfl rfl

/-- The block contributed by one list element is an infix of the flattened
output. -/
theorem block_infix_of_mem {α β : Type} (g : α → List β) :
    ∀ {l : List α} {a}, a ∈ l → g a <:+: l.flatMap g := by
  intro l
  induction l with
  | nil => intro a ha; cases ha
  | cons b t ih =>
    intro a ha
    rw [List.flatMap_cons]
    cases ha with
    | head => exact (List.prefix_append _ _).isInfix
    | tail _ h => exact (ih h).trans (List.suffix_append _ _).isInfix

/-- C1: for every record containing a field whose developer-origin
indicator is present and true, the program prints the record's 0-based
index and timestamp, followed by every field of the record (name, value,
units) one per line — regardless of the fields' names — and these lines
occur in the first report section. -/
theorem dev_field_record_printed (rs : List Message) (i : Nat) (r : Message) (f : Field)
    (hr : rs[i]? = some r) (hf : f ∈ r.fields) (hdev : isDevField f = true) :
    recordLines i r = recordHeader i r :: r.fields.map fieldLine ++ [""] ∧
    recordLines i r <:+: recordSection rs := by
  have hmem : f ∈ dev_fields r := List.mem_filter.mpr ⟨hf, hdev⟩
  have hdne : (dev_fields r).isEmpty = false := by
    rw [List.isEmpty_eq_false]
    intro h
    rw [h] at hmem
    cases hmem
  have hsel : selected_fields r = dev_fields r := by simp [selected_fields, hdne]
  have hEmpty : (selected_fields r).isEmpty = false := by rw [hsel]; exact hdne
  have hlines : recordLines i r = recordHeader i r :: r.fields.map fieldLine ++ [""] := by
    simp [recordLines, hEmpty]
  refine ⟨hlines, ?_⟩
  have henum : (i, r) ∈ rs.enum := List.mem_enum_iff_getElem?.mpr hr
  have hinf := block_infix_of_mem (fun p => recordLines p.1 p.2) henum
  exact List.infix_cons (List.infix_cons hinf)

/-- Witness for C1 at a one-record input whose field is developer-origin. -/
theorem dev_field_record_printed_witness :
    recordLines 0 recEx = recordHeader 0 recEx :: recEx.fields.map fieldLine ++ [""] ∧
    recordLines 0 recEx <:+: recordSection [recEx] :=
  dev_field_record_printed [recEx] 0 recEx devF rfl (by decide) (by decide)

/-- C4: a record with no developer-origin field but a field whose name
contains "lactate" case-insensitively is reported through the fallback
filter, and its entry appears exactly once (the header line occurs once in
the record's printed block; the two case-variant checks never duplicate
it). -/
theorem fallback_record_reported_once (i : Nat) (r : Message) (f : Field)
    (hdev : dev_fields r = []) (hf : f ∈ r.fields)
    (hname : containsSub "lactate" (pyLower (nameOrEmpty f)) = true) :
    recordLines i r = recordHeader i r :: r.fields.map fieldLine ++ [""] ∧
    (recordLines i r).countP (fun l => l == recordHeader i r) = 1 := by
  have hm : fallbackMatch f = true := by
    unfold fallbackMatch
    rw [hname, Bool.true_or]
  have hmem : f ∈ fallback_fields r := List.mem_filter.mpr ⟨hf, hm⟩
  have hfne : (fallback_fields r).isEmpty = false := by
    rw [List.isEmpty_eq_false]
    intro h
    rw [h] at hmem
    cases hmem
  have hsel : selected_fields r = fallback_fields r := by simp [selected_fields, hdev]
  have hEmpty : (selected_fields r).isEmpty = false := by rw [hsel]; exact hfne
  have hlines : recordLines i r = recordHeader i r :: r.fields.map fieldLine ++ [""] := by
    simp [recordLines, hEmpty]
  exact ⟨hlines, by rw [hlines]; exact countP_record_block i r⟩

/-- Witness for C4 at a record whose only field is named
"Lactate Threshold" and has no definition object. -/
theorem fallback_record_reported_once_witness :
    recordLines 0 recLact = recordHeader 0 recLact :: recLact.fields.map fieldLine ++ [""] ∧
    (recordLines 0 recLact).countP (fun l => l == recordHeader 0 recLact) = 1 :=
  fallback_record_reported_once 0 recLact lactF (by decide) (by decide) (by decide)

/-- C5: when no field of any record is developer-origin and no field name
contains "lactate" in any case, the first report section is only its
header banner (and the blank line its `print` appends). -/
theorem no_match_section_empty (rs : List Message)
    (h : ∀ r ∈ rs, ∀ f ∈ r.fields, isDevField f = false ∧
          containsSub "lactate" (pyLower (nameOrEmpty f)) = false) :
    recordSection rs = ["=== ALL RECORD MESSAGES WITH DEVELOPER FIELDS ===", ""] := by
  have hall : ∀ p ∈ rs.enum, (fun q : Nat × Message => recordLines q.1 q.2) p = [] := by
    intro p hp
    have hr : p.2 ∈ rs := List.getElem?_mem (List.mem_enum_iff_getElem?.mp hp)
    have hdev : dev_fields p.2 = [] := by
      rw [dev_fields, List.filter_eq_nil_iff]
      intro f hf
      simp [(h p.2 hr f hf).1]
    have hfb : fallback_fields p.2 = [] := by
      rw [fallback_fields, List.filter_eq_nil_iff]
      intro f hf hmatch
      have hci := (h p.2 hr f hf).2
      unfold fallbackMatch at hmatch
      rw [hci, Bool.false_or] at hmatch
      have := lactate_subsumes _ hmatch
      rw [hci] at this
      cases this
    have hsel : selected_fields p.2 = [] := by
      rw [selected_eq_fallback p.2 hdev, hfb]
    simp [recordLines, hsel]
  unfold recordSection
  rw [List.flatMap_eq_nil_iff.mpr hall]

/-- Witness for C5 at a one-record input with one ordinary field. -/
theorem no_match_section_empty_witness :
    recordSection [recPlain] = ["=== ALL RECORD MESSAGES WITH DEVELOPER FIELDS ===", ""] :=
  no_match_section_empty [recPlain] (by decide)

/-- C6: a matched record with no field named "timestamp" is printed
normally: the looked-up timestamp value is absent, it is displayed as
`None`, and the record's header and field list are still printed — no
error is raised (the lookup is total). -/
theorem missing_timestamp_tolerated (i : Nat) (r : Message)
    (hsel : selected_fields r ≠ [])
    (hts : ∀ f ∈ r.fields, f.name ≠ some "timestamp") :
    get_value r "timestamp" = none ∧
    pyStr (get_value r "timestamp") = "None" ∧
    recordLines i r = recordHeader i r :: r.fields.map fieldLine ++ [""] := by
  have hfind : r.fields.find? (fun f => f.name == some "timestamp") = none := by
    rw [List.find?_eq_none]
    intro f hf
    simp [hts f hf]
  have hval : get_value r "timestamp" = none := by
    rw [get_value, hfind]
  have hEmpty : (selected_fields r).isEmpty = false := List.isEmpty_eq_false.mpr hsel
  refine ⟨hval, by rw [hval]; rfl, ?_⟩
  simp [recordLines, hEmpty]

/-- Witness for C6 at a matched record with no timestamp field. -/
theorem missing_timestamp_tolerated_witness :
    get_value recEx "timestamp" = none ∧
    pyStr (get_value recEx "timestamp") = "None" ∧
    recordLines 0 recEx = recordHeader 0 recEx :: recEx.fields.map fieldLine ++ [""] :=
  missing_timestamp_tolerated 0 recEx (by decide) (by decide)

/-- C7: each missing optional attribute is tolerated independently, never
making the program fail. A field with no name matches as if its name were
the empty string and is printed with the absent name displayed as `None`;
a field with no developer-origin indicator (no definition object, or one
lacking the attribute — regardless of its name) counts as non-developer. -/
theorem missing_attrs_tolerated (f : Field) :
    (f.name = none →
      nameOrEmpty f = "" ∧ fallbackMatch f = false ∧
      fieldLine f = "  None: " ++ pyStr f.value ++ " (" ++ pyStr f.units ++ ")") ∧
    ((f.field = none ∨ ∃ fd, f.field = some fd ∧ fd.is_developer = none) →
      isDevField f = false) := by
  constructor
  · intro hn
    have h1 : nameOrEmpty f = "" := by simp [nameOrEmpty, hn]
    refine ⟨h1, ?_, ?_⟩
    · unfold fallbackMatch
      rw [h1]
      decide
    · unfold fieldLine
      rw [hn]
      rfl
  · intro hd
    cases hd with
    | inl h => simp [isDevField, h]
    | inr h =>
      obtain ⟨fd, hfd, hdev⟩ := h
      simp [isDevField, hfd, hdev]

/-- Witness for C7: the nameless branch at a field with every optional
attribute missing, and the indicator branch at a normally named field
whose definition object lacks the attribute. -/
theorem missing_attrs_tolerated_witness :
    (nameOrEmpty bareF = "" ∧ fallbackMatch bareF = false ∧
      fieldLine bareF = "  None: " ++ pyStr bareF.value ++ " (" ++ pyStr bareF.units ++ ")") ∧
    isDevField namedNoIndF = false :=
  ⟨(missing_attrs_tolerated bareF).1 rfl,
   (missing_attrs_tolerated namedNoIndF).2 (Or.inr ⟨⟨none⟩, rfl, rfl⟩)⟩

/-- The metadata block printed for one `field_description` message
contains the header line exactly once. -/
theorem countP_fd_block (m : Message) :
    (msgBlock "Field Description:" m).countP (fun l => l == "Field Description:") = 1 := by
  have h0 : (m.fields.map msgPairLine).countP (fun l => l == "Field Description:") = 0 := by
    rw [List.countP_eq_zero]
    intro a ha hpa
    obtain ⟨f, _, rfl⟩ := List.mem_map.mp ha
    rw [beq_false_of_head _ _ (by rw [data_head_msgPairLine]; decide)] at hpa
    cases hpa
  have h1 : ([""] : List String).countP (fun l => l == "Field Description:") = 0 := by
    decide
  rw [msgBlock, List.countP_append, List.countP_cons, h0, h1, beq_self_eq_true]
  simp

/-- The flattened `field_description` dump contains one header line per
message. -/
theorem fd_headers_count (ms : List Message) :
    (ms.flatMap (msgBlock "Field Description:")).countP
      (fun l => l == "Field Description:") = ms.length := by
  induction ms with
  | nil => rfl
  | cons m t ih =>
    rw [List.flatMap_cons, List.countP_append, countP_fd_block, ih]
    simp [Nat.add_comm]

/-- C8: for an input with exactly N `field_description` messages, the
output section holds exactly N "Field Description:" header lines, each
followed by that message's field name/value pairs in the message's native
field order, messages processed in the order the collaborator yields
them. -/
theorem fd_section_structure (ms : List Message) :
    fdSection ms = "" :: "=== ALL DEVELOPER FIELD DESCRIPTION MESSAGES ===" :: "" ::
        ms.flatMap (fun m => "Field Description:" :: m.fields.map msgPairLine ++ [""]) ∧
    (fdSection ms).countP (fun l => l == "Field Description:") = ms.length := by
  refine ⟨rfl, ?_⟩
  have e1 : (("" : String) == "Field Description:") = false := by decide
  have e2 : (("=== ALL DEVELOPER FIELD DESCRIPTION MESSAGES ===" : String)
      == "Field Description:") = false := by decide
  rw [fdSection, List.countP_cons, List.countP_cons, List.countP_cons,
    fd_headers_count, e1, e2]
  simp

/-- C9: a field with no definition object is never counted by the
developer-origin path; it can make a record be reported only through the
name-based fallback filter. -/
theorem absent_fielddef_not_dev (r : Message) (f : Field) (hf : f.field = none) :
    isDevField f = false ∧ f ∉ dev_fields r ∧
    (f ∈ selected_fields r → dev_fields r = [] ∧ f ∈ fallback_fields r) := by
  have h1 : isDevField f = false := by simp [isDevField, hf]
  refine ⟨h1, ?_, ?_⟩
  · intro hmem
    have h2 := (List.mem_filter.mp hmem).2
    rw [h1] at h2
    cases h2
  · intro hsel
    by_cases hd : dev_fields r = []
    · exact ⟨hd, by rw [selected_eq_fallback r hd] at hsel; exact hsel⟩
    · exfalso
      rw [selected_eq_dev r hd] at hsel
      have h2 := (List.mem_filter.mp hsel).2
      rw [h1] at h2
      cases h2

/-- Witness for C9 at a definition-less field reported via the fallback. -/
theorem absent_fielddef_not_dev_witness :
    isDevField lactF = false ∧ lactF ∉ dev_fields recLact ∧
    (lactF ∈ selected_fields recLact →
      dev_fields recLact = [] ∧ lactF ∈ fallback_fields recLact) :=
  absent_fielddef_not_dev recLact lactF rfl

end ParseFit
